import Mathlib

/-!
# The OMPL interface of MoveIt: a shallow embedding

Embedding of `ompl_interface/ompl_interface.h` (class `OMPLInterface`).

The header holds the bodies of the small delegating members
(`setPlanningConfigurations`, `getLastPlanningContext`, both overloads of
`getPlanningContext`, `useConstraintsApproximations`,
`isUsingConstraintsApproximations`, `loadConstraintApproximations`,
`saveConstraintApproximations`, `configureConstraints`).  The classes they
delegate to (`PlanningContextManager`, `ConstraintsLibrary`,
`ModelBasedPlanningContext`) and the out-of-line members (`solve`,
`prepareForSolve`, the constructor) are not part of the header; every
definition that stands for one of them says so in its doc comment.

Planning contexts are handled through shared pointers in the source, so the
embedding keeps them in an explicit heap: a pointer is an address, the
manager's "last context" and the pointer handed to the caller alias the same
heap cell.
-/

namespace ompl_interface

/-! ## Data model -/

/-- Object identity: the address of a heap cell or of a member object. -/
abbrev Addr := Nat

/-- Error taxonomy of the specification (section 7). -/
inductive PlanningError
  | ConfigNotFound
  | UnsupportedFactoryType
  | InvalidRequest
  | InvalidTimeout
  | StartStateInCollision
  | ApproximationBuildFailed
  | CorruptStore
  | TimedOut
  | Cancelled
  | PlanningFailed
deriving DecidableEq, Repr

/-- Ways in which a member function of the interface can fail to return. -/
inductive Fault
  /-- A failure reported by a callee and passed on to the caller unchanged. -/
  | raised (e : PlanningError)
  /-- The body applies `->` to a pointer that owns no object. -/
  | nullDereference
deriving DecidableEq, Repr

deriving instance DecidableEq for Except

/-- Modelled from the spec: `PlanningConfigurationSettings` (the header only
names the type).  Fields are those of the PlannerConfiguration record. -/
structure PlanningConfigurationSettings where
  name : String
  group : String
  planner_id : String
  parameters : List (String × String)
deriving DecidableEq, Repr

/-- Modelled from the spec: one goal or path constraint (a type tag and its
numeric parameters); the message type is outside the header. -/
structure Constraint where
  kind : String
  params : List Int
deriving DecidableEq, Repr

/-- Modelled from the spec: a robot state, possibly partial: the joints that
are given, each with its value. -/
abbrev RobotState := List (String × Int)

/-- Modelled from the spec: `moveit_msgs::MotionPlanRequest`, the input
request of section 6.  The time budget is an integer number of clock ticks. -/
structure MotionPlanRequest where
  group_name : String
  start_state : RobotState
  goal_constraints : List Constraint
  path_constraints : Option (List Constraint)
  planner_id : String
  num_planning_attempts : Option Nat
  allowed_planning_time : Int
deriving DecidableEq, Repr

/-- Modelled from the spec: `ModelBasedPlanningContext`, the PlanningContext
record of section 3.  The identifier of a context is its heap address.
`constraints_approximations` is the non-owning pointer written by
`setConstraintsApproximations`: `none` is `NULL`, `some p` points at the
`ConstraintsLibrary` object that lives at address `p`. -/
structure ModelBasedPlanningContext where
  configuration : PlanningConfigurationSettings
  state_space : String
  start_state : RobotState
  goal_constraints : List Constraint
  path_constraints : Option (List Constraint)
  constraints_approximations : Option Addr
  cancel_flag : Bool
deriving DecidableEq, Repr

/-- Modelled from the spec: `ModelBasedPlanningContext::setConstraintsApproximations`,
the setter of the context's (0-or-1) approximation reference. -/
def ModelBasedPlanningContext.setConstraintsApproximations
    (c : ModelBasedPlanningContext) (p : Option Addr) : ModelBasedPlanningContext :=
  { c with constraints_approximations := p }

/-- A shared pointer to a planning context: `none` is the empty pointer. -/
abbrev ModelBasedPlanningContextPtr := Option Addr

/-- The heap of planning contexts; the address of a context is its index. -/
abbrev Heap := List ModelBasedPlanningContext

/-- Modelled from the spec: the kinematic model, here only the planning
groups it defines. -/
structure KinematicModel where
  groups : List String
deriving DecidableEq, Repr

/-! ## The constraint-approximation store -/

/-- Modelled from the spec: a ConstraintSignature, the normalised encoding of
a set of constraints (type tags and numeric parameters). -/
structure ConstraintSignature where
  encoding : List Int
deriving DecidableEq, Repr

/-- Modelled from the spec: the well-formedness of an edge array: every edge
of the index-pair list names two states of an arena of `n` states. -/
def edgesInRange (n : Nat) (edges : List (Nat × Nat)) : Bool :=
  edges.all fun e => decide (e.1 < n) && decide (e.2 < n)

/-- Modelled from the spec: the manifold graph of an approximation, as an
arena of sampled states (each a coordinate vector, in fixed-point units) and
an edge array of state-index pairs.  Edges only connect stored states. -/
structure ManifoldGraph where
  states : List (List Int)
  edges : List (Nat × Nat)
  edges_ok : edgesInRange states.length edges = true
deriving DecidableEq, Repr

/-- Modelled from the spec: a ConstraintApproximation record of section 3. -/
structure ConstraintApproximation where
  signature : ConstraintSignature
  group : String
  manifold_graph : ManifoldGraph
  storage_path : String
deriving DecidableEq, Repr

/-- Modelled from the spec: `ConstraintsLibrary`, the
ConstraintApproximationStore, a collection of approximations. -/
structure ConstraintsLibrary where
  constraint_approximations_ : List ConstraintApproximation
deriving DecidableEq, Repr

/-! ## The planning-context manager -/

/-- Modelled from the spec: one state-space construction strategy of the
closed set the manager selects from by its type string. -/
structure StateSpaceFactory where
  type_name : String
  default_for : List String
deriving DecidableEq, Repr

/-- Modelled from the spec: `PlanningContextManager` (declared in
`planning_context_manager.h`, outside the header): the configuration table,
the state-space strategies and the "last context" handle. -/
structure PlanningContextManager where
  kmodel_ : KinematicModel
  planner_configs_ : List PlanningConfigurationSettings
  state_space_factories_ : List StateSpaceFactory
  last_planning_context_ : ModelBasedPlanningContextPtr
deriving DecidableEq, Repr

/-- Modelled from the spec: the manager's constructor: nothing registered,
no context created yet. -/
def PlanningContextManager.new (kmodel : KinematicModel)
    (factories : List StateSpaceFactory) : PlanningContextManager :=
  { kmodel_ := kmodel, planner_configs_ := [], state_space_factories_ := factories,
    last_planning_context_ := none }

/-- Modelled from the spec: `PlanningContextManager::setPlanningConfigurations`,
the registry's `register`: the table is replaced wholesale. -/
def PlanningContextManager.setPlanningConfigurations (self : PlanningContextManager)
    (pconfig : List PlanningConfigurationSettings) : PlanningContextManager :=
  { self with planner_configs_ := pconfig }

/-- Modelled from the spec: the registry's `resolve`: lookup by name. -/
def PlanningContextManager.resolve (self : PlanningContextManager) (name : String) :
    Option PlanningConfigurationSettings :=
  self.planner_configs_.find? fun c => c.name == name

/-- Modelled from the spec: selection of the state-space strategy: the one
with the requested type, or, when the type is omitted (the empty string of
the default argument), the default one of the group. -/
def PlanningContextManager.selectFactory (self : PlanningContextManager)
    (group factory_type : String) : Option StateSpaceFactory :=
  if factory_type = "" then
    self.state_space_factories_.find? fun f => f.default_for.contains group
  else
    self.state_space_factories_.find? fun f => f.type_name == factory_type

/-- Modelled from the spec: `PlanningContextManager::getLastPlanningContext`. -/
def PlanningContextManager.getLastPlanningContext (self : PlanningContextManager) :
    ModelBasedPlanningContextPtr :=
  self.last_planning_context_

/-- Modelled from the spec: `PlanningContextManager::getPlanningContext(config,
factory_type)`: resolves the configuration, picks the state-space strategy,
builds a fresh context in a new heap cell, records it as "last" and returns
it.  A failure has no side effect. -/
def PlanningContextManager.getPlanningContext (self : PlanningContextManager) (heap : Heap)
    (config : String) (factory_type : String) :
    Except PlanningError (Addr × PlanningContextManager × Heap) :=
  match self.resolve config with
  | none => .error .ConfigNotFound
  | some cfg =>
    match self.selectFactory cfg.group factory_type with
    | none => .error .UnsupportedFactoryType
    | some f =>
      .ok (heap.length,
           { self with last_planning_context_ := some heap.length },
           heap ++ [{ configuration := cfg, state_space := f.type_name, start_state := [],
                      goal_constraints := [], path_constraints := none,
                      constraints_approximations := none, cancel_flag := false }])

/-- Modelled from the spec: the configuration name a request stands for,
derived from its group and planner hint: the group alone when no planner is
named, the group qualified by the planner otherwise. -/
def configNameOf (req : MotionPlanRequest) : String :=
  if req.planner_id = "" then req.group_name
  else req.group_name ++ "[" ++ req.planner_id ++ "]"

/-- Modelled from the spec: the request-validation part of
`getPlanningContext(request)`: the group is known and the goal is not empty. -/
def PlanningContextManager.validRequest (self : PlanningContextManager)
    (req : MotionPlanRequest) : Bool :=
  self.kmodel_.groups.contains req.group_name && !req.goal_constraints.isEmpty

/-- Modelled from the spec: the seeding of a context from a request: start
state, goal and path constraints are taken from the request. -/
def ModelBasedPlanningContext.seed (c : ModelBasedPlanningContext) (req : MotionPlanRequest) :
    ModelBasedPlanningContext :=
  { c with start_state := req.start_state, goal_constraints := req.goal_constraints,
           path_constraints := req.path_constraints }

/-- Modelled from the spec: `PlanningContextManager::getPlanningContext(request)`:
validates the request, derives the configuration name, delegates to the
name-based overload and seeds the new context from the request. -/
def PlanningContextManager.getPlanningContextForRequest (self : PlanningContextManager)
    (heap : Heap) (req : MotionPlanRequest) :
    Except PlanningError (Addr × PlanningContextManager × Heap) :=
  if self.validRequest req then
    match self.getPlanningContext heap (configNameOf req) "" with
    | .error e => .error e
    | .ok (a, m, h) => .ok (a, m, h.modify (fun c => c.seed req) a)
  else .error .InvalidRequest

/-! ## The interface -/

/-- The members of `OMPLInterface`.  `constraints_library_addr` is the
address of the member `constraints_library_`, the value of the expression
`&constraints_library_`; it is fixed for the lifetime of the object. -/
structure OMPLInterface where
  kmodel_ : KinematicModel
  context_manager_ : PlanningContextManager
  constraints_library_ : ConstraintsLibrary
  constraints_library_addr : Addr
  use_constraints_approximations_ : Bool
deriving DecidableEq, Repr

/-- `OMPLInterface::setPlanningConfigurations` (header lines 61-64). -/
def OMPLInterface.setPlanningConfigurations (self : OMPLInterface)
    (pconfig : List PlanningConfigurationSettings) : OMPLInterface :=
  { self with context_manager_ := self.context_manager_.setPlanningConfigurations pconfig }

/-- `OMPLInterface::getLastPlanningContext` (header lines 112-115). -/
def OMPLInterface.getLastPlanningContext (self : OMPLInterface) : ModelBasedPlanningContextPtr :=
  self.context_manager_.getLastPlanningContext

/-- `OMPLInterface::useConstraintsApproximations` (header lines 151-154). -/
def OMPLInterface.useConstraintsApproximations (self : OMPLInterface) (flag : Bool) :
    OMPLInterface :=
  { self with use_constraints_approximations_ := flag }

/-- `OMPLInterface::isUsingConstraintsApproximations` (header lines 156-159). -/
def OMPLInterface.isUsingConstraintsApproximations (self : OMPLInterface) : Bool :=
  self.use_constraints_approximations_

/-- `OMPLInterface::configureConstraints` (header lines 173-179).  The
context is reached through its pointer; a pointer that owns no object makes
the call fail. -/
def OMPLInterface.configureConstraints (self : OMPLInterface) (heap : Heap)
    (context : ModelBasedPlanningContextPtr) : Except Fault Heap :=
  match context with
  | none => .error .nullDereference
  | some a =>
    match heap[a]? with
    | none => .error .nullDereference
    | some c =>
      if self.use_constraints_approximations_ then
        .ok (heap.set a (c.setConstraintsApproximations (some self.constraints_library_addr)))
      else
        .ok (heap.set a (c.setConstraintsApproximations none))

/-- `OMPLInterface::getPlanningContext(config, factory_type)` (header lines
124-129).  The manager's "last context" handle sits behind a pointer, so the
`const` member still updates it: the interface after the call is returned
together with the context and the heap. -/
def OMPLInterface.getPlanningContext (self : OMPLInterface) (heap : Heap)
    (config : String) (factory_type : String) :
    Except Fault (ModelBasedPlanningContextPtr × OMPLInterface × Heap) :=
  match self.context_manager_.getPlanningContext heap config factory_type with
  | .error e => .error (.raised e)
  | .ok (a, m, h) =>
    match self.configureConstraints h (some a) with
    | .error e => .error e
    | .ok h1 => .ok (some a, { self with context_manager_ := m }, h1)

/-- `OMPLInterface::getPlanningContext(req)` (header lines 117-122). -/
def OMPLInterface.getPlanningContextForRequest (self : OMPLInterface) (heap : Heap)
    (req : MotionPlanRequest) :
    Except Fault (ModelBasedPlanningContextPtr × OMPLInterface × Heap) :=
  match self.context_manager_.getPlanningContextForRequest heap req with
  | .error e => .error (.raised e)
  | .ok (a, m, h) =>
    match self.configureConstraints h (some a) with
    | .error e => .error e
    | .ok h1 => .ok (some a, { self with context_manager_ := m }, h1)


/-- Modelled from the spec: the constructor `OMPLInterface(kmodel)` (defined
out of line): a fresh manager, an empty store.  Where the object lives and
the initial value of the flag are not fixed by the specification and are
arguments. -/
def OMPLInterface.new (kmodel : KinematicModel) (factories : List StateSpaceFactory)
    (library_addr : Addr) (flag : Bool) : OMPLInterface :=
  { kmodel_ := kmodel, context_manager_ := PlanningContextManager.new kmodel factories,
    constraints_library_ := { constraint_approximations_ := [] },
    constraints_library_addr := library_addr, use_constraints_approximations_ := flag }

/-! ## Program states and call sequences -/

/-- What `context->constraints_approximations` reads: `none` when the pointer
owns no object, `some r` with `r` the stored reference otherwise. -/
def referenceOf (heap : Heap) (context : ModelBasedPlanningContextPtr) : Option (Option Addr) :=
  match context with
  | none => none
  | some a => heap[a]?.map fun c => c.constraints_approximations

/-- The context behind the pointer has a store attached. -/
def isAttached (heap : Heap) (context : ModelBasedPlanningContextPtr) : Bool :=
  match referenceOf heap context with
  | some (some _) => true
  | _ => false

/-- A program state: one interface object and the heap of contexts. -/
structure Session where
  iface : OMPLInterface
  heap : Heap
deriving DecidableEq, Repr

/-- A call of one of the two overloads of `getPlanningContext`. -/
inductive ContextCall
  | byName (config : String) (factory_type : String)
  | byRequest (req : MotionPlanRequest)
deriving DecidableEq, Repr

/-- What the manager alone does on a call. -/
def ContextCall.onManager (call : ContextCall) (m : PlanningContextManager) (heap : Heap) :
    Except PlanningError (Addr × PlanningContextManager × Heap) :=
  match call with
  | .byName config factory_type => m.getPlanningContext heap config factory_type
  | .byRequest req => m.getPlanningContextForRequest heap req

/-- A call of `getPlanningContext` in a program state. -/
def Session.getPlanningContext (s : Session) (call : ContextCall) :
    Except Fault (ModelBasedPlanningContextPtr × Session) :=
  match call with
  | .byName config factory_type =>
    match s.iface.getPlanningContext s.heap config factory_type with
    | .error e => .error e
    | .ok (p, i, h) => .ok (p, { iface := i, heap := h })
  | .byRequest req =>
    match s.iface.getPlanningContextForRequest s.heap req with
    | .error e => .error e
    | .ok (p, i, h) => .ok (p, { iface := i, heap := h })

/-- A call of `useConstraintsApproximations` in a program state. -/
def Session.useConstraintsApproximations (s : Session) (flag : Bool) : Session :=
  { s with iface := s.iface.useConstraintsApproximations flag }

/-- The program state after a call of `getPlanningContext`; a call that
fails leaves the state as it was. -/
def Session.after (s : Session) (call : ContextCall) : Session :=
  match s.getPlanningContext call with
  | .ok (_, s1) => s1
  | .error _ => s

/-- The program state after a sequence of calls of `getPlanningContext`. -/
def Session.run (s : Session) : List ContextCall → Session
  | [] => s
  | call :: calls => (s.after call).run calls

/-- The context returned by the last call of the sequence that succeeded,
`none` when no call did. -/
def Session.lastReturned (s : Session) : List ContextCall → ModelBasedPlanningContextPtr
  | [] => none
  | call :: calls =>
    match (s.after call).lastReturned calls with
    | some a => some a
    | none =>
      match s.getPlanningContext call with
      | .ok (p, _) => p
      | .error _ => none

/-! ## Persistence of the store

Modelled from the spec (section 6, persistence format): a store file is a
sequence of fields; it starts with a format name and a version, then the
number of entries, then the entries, each with its signature, group, states,
edges (state-index pairs) and storage path.  Sequences are written with
their length in front. -/

/-- Modelled from the spec: one field of a store file. -/
inductive Token
  | int (i : Int)
  | str (s : String)
deriving DecidableEq, Repr

/-- Modelled from the spec: the content of a store file. -/
abbrev StoreFile := List Token

/-- Modelled from the spec: the durable store: what each path holds; a path
that was never written holds the empty file. -/
abbrev FileSystem := String → StoreFile

/-- Modelled from the spec: the format name that opens a store file. -/
def storeFormatName : String := "constraint_approximations"

/-- Modelled from the spec: the format version written after the format name. -/
def storeFormatVersion : Int := 1

/-- Modelled from the spec: a reader takes one item from the front of a file
and returns it with the rest of the file, or rejects the file. -/
abbrev Reader (α : Type) := StoreFile → Option (α × StoreFile)

/-- Modelled from the spec: writes the items of a list one after another. -/
def writeMany {α : Type} (w : α → StoreFile) : List α → StoreFile
  | [] => []
  | a :: l => w a ++ writeMany w l

/-- Modelled from the spec: writes a list with its length in front. -/
def writeCounted {α : Type} (w : α → StoreFile) (l : List α) : StoreFile :=
  Token.int l.length :: writeMany w l

/-- Modelled from the spec: writes an integer field. -/
def writeInt (i : Int) : StoreFile := [Token.int i]

/-- Modelled from the spec: writes an edge as its pair of state indices. -/
def writeEdge (e : Nat × Nat) : StoreFile := [Token.int e.1, Token.int e.2]

/-- Modelled from the spec: writes a manifold graph: the states, then the
edges. -/
def writeGraph (g : ManifoldGraph) : StoreFile :=
  writeCounted (writeCounted writeInt) g.states ++ writeCounted writeEdge g.edges

/-- Modelled from the spec: writes one entry of the store. -/
def writeEntry (e : ConstraintApproximation) : StoreFile :=
  writeCounted writeInt e.signature.encoding ++ (Token.str e.group ::
    (writeGraph e.manifold_graph ++ [Token.str e.storage_path]))

/-- Modelled from the spec: writes a whole store. -/
def writeStore (lib : ConstraintsLibrary) : StoreFile :=
  Token.str storeFormatName :: Token.int storeFormatVersion ::
    writeCounted writeEntry lib.constraint_approximations_

/-- Modelled from the spec: reads an integer field. -/
def readInt : Reader Int
  | Token.int i :: rest => some (i, rest)
  | _ => none

/-- Modelled from the spec: reads a count or an index: an integer field that
is not negative. -/
def readNat : Reader Nat
  | Token.int i :: rest => if 0 ≤ i then some (i.toNat, rest) else none
  | _ => none

/-- Modelled from the spec: reads a text field. -/
def readStr : Reader String
  | Token.str s :: rest => some (s, rest)
  | _ => none

/-- Modelled from the spec: reads a given number of items. -/
def readMany {α : Type} (r : Reader α) : Nat → Reader (List α)
  | 0, f => some ([], f)
  | n + 1, f =>
    match r f with
    | none => none
    | some (a, rest) =>
      match readMany r n rest with
      | none => none
      | some (l, rest1) => some (a :: l, rest1)

/-- Modelled from the spec: reads a list written with its length in front. -/
def readCounted {α : Type} (r : Reader α) : Reader (List α) := fun f =>
  match readNat f with
  | none => none
  | some (n, rest) => readMany r n rest

/-- Modelled from the spec: reads an edge. -/
def readEdge : Reader (Nat × Nat) := fun f =>
  match readNat f with
  | none => none
  | some (a, rest) =>
    match readNat rest with
    | none => none
    | some (b, rest1) => some ((a, b), rest1)

/-- Modelled from the spec: reads a manifold graph and rejects one with an
edge that names a state that is not stored. -/
def readGraph : Reader ManifoldGraph := fun f =>
  match readCounted (readCounted readInt) f with
  | none => none
  | some (states, rest) =>
    match readCounted readEdge rest with
    | none => none
    | some (edges, rest1) =>
      if h : edgesInRange states.length edges = true then
        some ({ states := states, edges := edges, edges_ok := h }, rest1)
      else none

/-- Modelled from the spec: reads one entry of the store. -/
def readEntry : Reader ConstraintApproximation := fun f =>
  match readCounted readInt f with
  | none => none
  | some (sig, rest) =>
    match readStr rest with
    | none => none
    | some (group, rest1) =>
      match readGraph rest1 with
      | none => none
      | some (g, rest2) =>
        match readStr rest2 with
        | none => none
        | some (path, rest3) =>
          some ({ signature := { encoding := sig }, group := group, manifold_graph := g,
                  storage_path := path }, rest3)

/-- Modelled from the spec: the structural and version check of a store
file: the format name, the version, the announced number of well-formed
entries, and nothing after them.  Returns the store the file holds. -/
def readStore (f : StoreFile) : Option ConstraintsLibrary :=
  match f with
  | Token.str name :: Token.int version :: rest =>
    if name = storeFormatName ∧ version = storeFormatVersion then
      match readCounted readEntry rest with
      | some (entries, []) => some { constraint_approximations_ := entries }
      | _ => none
    else none
  | _ => none

/-- A reader gives back what a writer wrote, whatever follows in the file. -/
def ReadsBack {α : Type} (w : α → StoreFile) (r : Reader α) : Prop :=
  ∀ a rest, r (w a ++ rest) = some (a, rest)

/-- A reader accepts only what a writer writes. -/
def AcceptsOnlyWritten {α : Type} (w : α → StoreFile) (r : Reader α) : Prop :=
  ∀ f a rest, r f = some (a, rest) → f = w a ++ rest

/-- A file is structurally valid when it is the written form of a store. -/
def StructurallyValid (f : StoreFile) : Prop :=
  ∃ lib : ConstraintsLibrary, writeStore lib = f

/-- Modelled from the spec: a manifold graph with every sample coordinate
passed through `precision`, the finite precision at which coordinates are
saved. -/
def ManifoldGraph.rounded (precision : Int → Int) (g : ManifoldGraph) : ManifoldGraph :=
  { states := g.states.map fun x => x.map precision
    edges := g.edges
    edges_ok := by simpa using g.edges_ok }

/-- Modelled from the spec: an entry with its sample coordinates at the saved
precision. -/
def ConstraintApproximation.rounded (precision : Int → Int) (e : ConstraintApproximation) :
    ConstraintApproximation :=
  { e with manifold_graph := e.manifold_graph.rounded precision }

/-- Modelled from the spec: a store with its sample coordinates at the saved
precision. -/
def ConstraintsLibrary.rounded (precision : Int → Int) (lib : ConstraintsLibrary) :
    ConstraintsLibrary :=
  { constraint_approximations_ := lib.constraint_approximations_.map fun e => e.rounded precision }

/-- Modelled from the spec: `ConstraintsLibrary::saveConstraintApproximations`:
serialises the full store to the file at `path`; sample coordinates are
written at the finite precision `precision`. -/
def ConstraintsLibrary.saveConstraintApproximations (precision : Int → Int)
    (self : ConstraintsLibrary) (fs : FileSystem) (path : String) : FileSystem :=
  fun p => if p = path then writeStore (self.rounded precision) else fs p

/-- Modelled from the spec: `ConstraintsLibrary::loadConstraintApproximations`:
deserialises the full store from the file at `path`; a file that fails the
structural and version check is reported as `CorruptStore` and the store in
memory stays as it was. -/
def ConstraintsLibrary.loadConstraintApproximations (self : ConstraintsLibrary)
    (fs : FileSystem) (path : String) : Except PlanningError Unit × ConstraintsLibrary :=
  match readStore (fs path) with
  | none => (.error .CorruptStore, self)
  | some lib => (.ok (), lib)

/-- `OMPLInterface::loadConstraintApproximations` (header lines 161-164): the
call is passed to the store; what the store reports reaches the caller. -/
def OMPLInterface.loadConstraintApproximations (self : OMPLInterface) (fs : FileSystem)
    (path : String) : Except PlanningError Unit × OMPLInterface :=
  ((self.constraints_library_.loadConstraintApproximations fs path).1,
   { self with constraints_library_ :=
      (self.constraints_library_.loadConstraintApproximations fs path).2 })

/-- `OMPLInterface::saveConstraintApproximations` (header lines 166-169). -/
def OMPLInterface.saveConstraintApproximations (precision : Int → Int) (self : OMPLInterface)
    (fs : FileSystem) (path : String) : FileSystem :=
  self.constraints_library_.saveConstraintApproximations precision fs path

/-- The topology of an entry: its signature, its group, the number of its
states and its edges. -/
def ConstraintApproximation.topology (e : ConstraintApproximation) :
    ConstraintSignature × String × Nat × List (Nat × Nat) :=
  (e.signature, e.group, e.manifold_graph.states.length, e.manifold_graph.edges)

/-! ## Preparation of a solve

`prepareForSolve` and `solve` are declared in the header and defined out of
line; they are modelled from section 4.4 of the specification. -/

/-- Modelled from the spec: the motion that leads from the robot's current
state to a valid start state, filled in when the start state of the request
is incomplete. -/
structure PrefixMotion where
  prefix_state : RobotState
  prefix_trajectory : List RobotState
  prefix_plan_time : Int
deriving DecidableEq, Repr

/-- Modelled from the spec: the planning scene, an external collaborator: it
completes the start state of a request (with a leading motion when one is
needed) or reports why it cannot, for instance `StartStateInCollision`. -/
structure PlanningScene where
  resolveStart : RobotState → Except PlanningError (RobotState × Option PrefixMotion)

/-- Modelled from the spec: what a successful `prepareForSolve` produces: the
ready-to-run context, the attempt count, the time budget and the leading
motion. -/
structure PreparedSolve where
  context : ModelBasedPlanningContextPtr
  attempts : Nat
  timeout : Int
  lead : Option PrefixMotion
deriving DecidableEq, Repr

/-- Modelled from the spec: `OMPLInterface::prepareForSolve`: resolves the
time budget (greater than 0, `InvalidTimeout` otherwise), validates the
request, resolves the planner configuration, resolves the attempt count
(1 when unspecified; at least 1), completes the start state, and only then
creates the context.  The specification states the rule of the time budget
without condition and does not order it against the other checks; it is
applied here before them, and for a request that passes the other checks the
order makes no difference.  A failure leaves the interface and the heap as
they were and produces no context. -/
def OMPLInterface.prepareForSolve (self : OMPLInterface) (heap : Heap)
    (planning_scene : PlanningScene) (req : MotionPlanRequest) :
    Except Fault PreparedSolve × OMPLInterface × Heap :=
  if 0 < req.allowed_planning_time then
    if self.context_manager_.validRequest req then
      match self.context_manager_.resolve (configNameOf req) with
      | none => (.error (.raised .ConfigNotFound), self, heap)
      | some _ =>
        if 1 ≤ req.num_planning_attempts.getD 1 then
          match planning_scene.resolveStart req.start_state with
          | .error e => (.error (.raised e), self, heap)
          | .ok (start, lead) =>
            match self.getPlanningContextForRequest heap { req with start_state := start } with
            | .error e => (.error e, self, heap)
            | .ok (p, i, h) =>
              (.ok { context := p, attempts := req.num_planning_attempts.getD 1,
                     timeout := req.allowed_planning_time, lead := lead }, i, h)
        else (.error (.raised .InvalidRequest), self, heap)
    else (.error (.raised .InvalidRequest), self, heap)
  else (.error (.raised .InvalidTimeout), self, heap)

/-- A configuration for the group "arm". -/
def armConfig : PlanningConfigurationSettings :=
  { name := "arm", group := "arm", planner_id := "RRTConnect", parameters := [("range", "0.1")] }

/-- A kinematic model with the single group "arm". -/
def armModel : KinematicModel := { groups := ["arm"] }

/-- The state-space strategies of the example: joint space is the default
for "arm". -/
def armFactories : List StateSpaceFactory :=
  [{ type_name := "JointModel", default_for := ["arm"] },
   { type_name := "PoseModel", default_for := [] }]

/-- An interface whose store lives at address 100, with the flag set and
the configuration "arm" registered. -/
def armInterface : OMPLInterface :=
  (OMPLInterface.new armModel armFactories 100 true).setPlanningConfigurations [armConfig]

/-- A context that references a store at address 7. -/
def armContext : ModelBasedPlanningContext :=
  { configuration := armConfig, state_space := "JointModel", start_state := [],
    goal_constraints := [], path_constraints := none, constraints_approximations := some 7,
    cancel_flag := false }

/-- A request for the group "arm" with a goal and a time budget of 0. -/
def armRequestNoTime : MotionPlanRequest :=
  { group_name := "arm", start_state := [("shoulder", 0)],
    goal_constraints := [{ kind := "joint", params := [1] }], path_constraints := none,
    planner_id := "", num_planning_attempts := none, allowed_planning_time := 0 }

/-- The same request with a time budget of 5. -/
def armRequest : MotionPlanRequest :=
  { armRequestNoTime with allowed_planning_time := 5 }

/-- A planning scene in which every start state is complete and valid. -/
def openScene : PlanningScene := { resolveStart := fun s => .ok (s, none) }

/-- A store with one entry: two states joined by an edge. -/
def armLibrary : ConstraintsLibrary :=
  { constraint_approximations_ :=
      [{ signature := { encoding := [3, 14] }, group := "arm",
         manifold_graph := { states := [[0, 1], [2, 3]], edges := [(0, 1)], edges_ok := rfl },
         storage_path := "arm_0" }] }

/-- A file system with no file written. -/
def emptyFiles : FileSystem := fun _ => []

/-- The context the manager builds for the configuration "arm". -/
def armFreshContext : ModelBasedPlanningContext :=
  { armContext with constraints_approximations := none }

/-- The manager of `armInterface` once it has created the context at
address 0. -/
def armManagerAfter : PlanningContextManager :=
  { armInterface.context_manager_ with last_planning_context_ := some 0 }

/-- The program state in which `armInterface` has created no context. -/
def armSession : Session := { iface := armInterface, heap := [] }

/-- The program state after `armInterface` has created its first context by
name. -/
def armSessionAfter : Session :=
  { iface := { armInterface with context_manager_ := armManagerAfter },
    heap := [{ armContext with constraints_approximations := some 100 }] }

/-- An interface that holds the store `armLibrary`. -/
def armInterfaceLoaded : OMPLInterface :=
  { armInterface with constraints_library_ := armLibrary }

/-- A file system whose every file is the written form of `armLibrary` cut
after 12 fields (of 18). -/
def truncatedFiles : FileSystem := fun _ => (writeStore armLibrary).take 12
/-! ## Theorems -/

/-! ### `configureConstraints` -/

theorem configureConstraints_ok (self : OMPLInterface) (heap : Heap) (a : Addr)
    (c : ModelBasedPlanningContext) (hc : heap[a]? = some c) :
    self.configureConstraints heap (some a) =
      .ok (heap.set a (c.setConstraintsApproximations
        (if self.use_constraints_approximations_ then some self.constraints_library_addr
         else none))) := by
  unfold OMPLInterface.configureConstraints
  simp only [hc]
  split <;> rfl

theorem getElem?_lt_of_eq_some {heap : Heap} {a : Addr} {c : ModelBasedPlanningContext}
    (hc : heap[a]? = some c) : a < heap.length := by
  by_contra h
  rw [List.getElem?_eq_none (Nat.le_of_not_lt h)] at hc
  cases hc

/-- C1. After `configureConstraints(context)` the context's reference is the
address of the interface's own store when the flag is set and `NULL` when it
is not; nothing else of the context and no other context changes; and the
outcome is the same whatever the context referenced before and whatever the
store contains. -/
theorem configureConstraints_sets_reference (self : OMPLInterface) (heap : Heap) (a : Addr)
    (c : ModelBasedPlanningContext) (hc : heap[a]? = some c) :
    ∃ heap1, self.configureConstraints heap (some a) = .ok heap1
      ∧ heap1[a]? = some (c.setConstraintsApproximations
          (if self.isUsingConstraintsApproximations then some self.constraints_library_addr
           else none))
      ∧ referenceOf heap1 (some a) =
          some (if self.isUsingConstraintsApproximations then some self.constraints_library_addr
                else none)
      ∧ heap1.length = heap.length
      ∧ (∀ b, b ≠ a → heap1[b]? = heap[b]?)
      ∧ (∀ (library : ConstraintsLibrary) (before : Option Addr),
          ({ self with constraints_library_ := library }).configureConstraints
              (heap.set a (c.setConstraintsApproximations before)) (some a) = .ok heap1) := by
  have hlt := getElem?_lt_of_eq_some hc
  refine ⟨_, configureConstraints_ok self heap a c hc, ?_, ?_, ?_, ?_, ?_⟩
  · simp [List.getElem?_set_self hlt, OMPLInterface.isUsingConstraintsApproximations]
  · simp [referenceOf, List.getElem?_set_self hlt,
      OMPLInterface.isUsingConstraintsApproximations,
      ModelBasedPlanningContext.setConstraintsApproximations]
  · simp
  · intro b hb
    exact List.getElem?_set_ne (Ne.symm hb)
  · intro library before
    have h2 : (heap.set a (c.setConstraintsApproximations before))[a]? =
        some (c.setConstraintsApproximations before) := List.getElem?_set_self hlt
    rw [configureConstraints_ok _ _ a _ h2]
    simp [ModelBasedPlanningContext.setConstraintsApproximations]

/-- C8. `configureConstraints` is idempotent: a second call on the same
context succeeds and leaves the heap exactly as the first call left it (the
member is `const`: the interface itself is not written by either call). -/
theorem configureConstraints_idempotent (self : OMPLInterface) (heap : Heap) (a : Addr)
    (c : ModelBasedPlanningContext) (hc : heap[a]? = some c) :
    ∃ heap1, self.configureConstraints heap (some a) = .ok heap1
      ∧ self.configureConstraints heap1 (some a) = .ok heap1 := by
  have hlt := getElem?_lt_of_eq_some hc
  refine ⟨_, configureConstraints_ok self heap a c hc, ?_⟩
  rw [configureConstraints_ok self _ a _ (List.getElem?_set_self hlt)]
  simp [ModelBasedPlanningContext.setConstraintsApproximations]

/-! ### The flag -/

/-- C9. After `useConstraintsApproximations(b)` the query
`isUsingConstraintsApproximations()` returns `b`, whatever the flag was, and
no other member of the interface has changed. -/
theorem useConstraintsApproximations_sets_flag (self : OMPLInterface) (b : Bool) :
    (self.useConstraintsApproximations b).isUsingConstraintsApproximations = b
      ∧ (self.useConstraintsApproximations b).context_manager_ = self.context_manager_
      ∧ (self.useConstraintsApproximations b).constraints_library_ = self.constraints_library_
      ∧ (self.useConstraintsApproximations b).constraints_library_addr =
          self.constraints_library_addr
      ∧ (self.useConstraintsApproximations b).kmodel_ = self.kmodel_ :=
  ⟨rfl, rfl, rfl, rfl, rfl⟩

/-! ### The configuration table -/

/-- C6. `setPlanningConfigurations` replaces the table wholesale: setting
`a` and then `b` gives the state that setting `b` alone gives, the table
after a call is the list passed, and the store, its address, the flag, the
kinematic model and the "last context" handle are untouched. -/
theorem setPlanningConfigurations_replaces (self : OMPLInterface)
    (a b : List PlanningConfigurationSettings) :
    (self.setPlanningConfigurations a).setPlanningConfigurations b =
        self.setPlanningConfigurations b
      ∧ (self.setPlanningConfigurations a).context_manager_.planner_configs_ = a
      ∧ (self.setPlanningConfigurations a).constraints_library_ = self.constraints_library_
      ∧ (self.setPlanningConfigurations a).isUsingConstraintsApproximations =
          self.isUsingConstraintsApproximations
      ∧ (self.setPlanningConfigurations a).constraints_library_addr =
          self.constraints_library_addr
      ∧ (self.setPlanningConfigurations a).kmodel_ = self.kmodel_
      ∧ (self.setPlanningConfigurations a).getLastPlanningContext =
          self.getLastPlanningContext :=
  ⟨rfl, rfl, rfl, rfl, rfl, rfl, rfl⟩

/-! ### Context creation -/

theorem modify_append_length {α : Type} (f : α → α) (l : List α) (x : α) :
    (l ++ [x]).modify f l.length = l ++ [f x] := by
  induction l with
  | nil => rfl
  | cons y ys ih => simp [List.modify_succ_cons, ih]

theorem manager_getPlanningContext_ok {m m1 : PlanningContextManager} {heap h : Heap}
    {config factory_type : String} {a : Addr}
    (hm : m.getPlanningContext heap config factory_type = .ok (a, m1, h)) :
    a = heap.length ∧ m1 = { m with last_planning_context_ := some heap.length }
      ∧ ∃ c, h = heap ++ [c] := by
  unfold PlanningContextManager.getPlanningContext at hm
  split at hm
  · cases hm
  · split at hm
    · cases hm
    · injection hm with hm
      injection hm with h1 h2
      injection h2 with h2 h3
      exact ⟨h1.symm, h2.symm, _, h3.symm⟩

theorem manager_onManager_ok {call : ContextCall} {m m1 : PlanningContextManager}
    {heap h : Heap} {a : Addr} (hm : call.onManager m heap = .ok (a, m1, h)) :
    a = heap.length ∧ m1 = { m with last_planning_context_ := some heap.length }
      ∧ ∃ c, h = heap ++ [c] := by
  cases call with
  | byName config factory_type => exact manager_getPlanningContext_ok hm
  | byRequest req =>
    simp only [ContextCall.onManager, PlanningContextManager.getPlanningContextForRequest] at hm
    split at hm
    · split at hm
      · cases hm
      · rename_i a0 m0 h0 heq
        obtain ⟨e1, e2, c, e3⟩ := manager_getPlanningContext_ok heq
        injection hm with hm
        injection hm with h1 h2
        injection h2 with h2 h3
        subst e1 e2 e3
        refine ⟨h1.symm, h2.symm, ?_⟩
        rw [modify_append_length] at h3
        exact ⟨_, h3.symm⟩
    · cases hm

theorem getElem?_append_singleton_length (heap : Heap) (c : ModelBasedPlanningContext) :
    (heap ++ [c])[heap.length]? = some c := by
  simp

/-- The reference `configureConstraints` writes. -/
theorem interface_configures_after_manager (self : OMPLInterface) {heap h : Heap}
    {call : ContextCall} {a : Addr} {m : PlanningContextManager}
    (hm : call.onManager self.context_manager_ heap = .ok (a, m, h)) :
    ∃ c, h[a]? = some c
      ∧ self.configureConstraints h (some a) =
          .ok (h.set a (c.setConstraintsApproximations
            (if self.isUsingConstraintsApproximations then some self.constraints_library_addr
             else none))) := by
  obtain ⟨e1, _, c, e3⟩ := manager_onManager_ok hm
  subst e1 e3
  exact ⟨c, getElem?_append_singleton_length heap c,
    configureConstraints_ok self _ _ c (getElem?_append_singleton_length heap c)⟩

/-- C2. Whenever the manager returns a context, `getPlanningContext` returns
that same pointer, and the context behind it is the one the manager built
with its reference set to the address of the interface's store when
`isUsingConstraintsApproximations()` holds at the call and to `NULL`
otherwise.  Both overloads, by name and by request, do so. -/
theorem getPlanningContext_configures (self : OMPLInterface) (heap : Heap) :
    (∀ (config factory_type : String) (a : Addr) (m : PlanningContextManager) (h : Heap),
        self.context_manager_.getPlanningContext heap config factory_type = .ok (a, m, h) →
        ∃ c h1, h[a]? = some c
          ∧ self.getPlanningContext heap config factory_type =
              .ok (some a, { self with context_manager_ := m }, h1)
          ∧ h1 = h.set a (c.setConstraintsApproximations
              (if self.isUsingConstraintsApproximations
               then some self.constraints_library_addr else none))
          ∧ referenceOf h1 (some a) =
              some (if self.isUsingConstraintsApproximations
                    then some self.constraints_library_addr else none))
    ∧ (∀ (req : MotionPlanRequest) (a : Addr) (m : PlanningContextManager) (h : Heap),
        self.context_manager_.getPlanningContextForRequest heap req = .ok (a, m, h) →
        ∃ c h1, h[a]? = some c
          ∧ self.getPlanningContextForRequest heap req =
              .ok (some a, { self with context_manager_ := m }, h1)
          ∧ h1 = h.set a (c.setConstraintsApproximations
              (if self.isUsingConstraintsApproximations
               then some self.constraints_library_addr else none))
          ∧ referenceOf h1 (some a) =
              some (if self.isUsingConstraintsApproximations
                    then some self.constraints_library_addr else none)) := by
  constructor
  · intro config factory_type a m h hm
    have hm1 : (ContextCall.byName config factory_type).onManager self.context_manager_ heap =
        .ok (a, m, h) := hm
    obtain ⟨c, hc, hcc⟩ := interface_configures_after_manager self hm1
    refine ⟨c, _, hc, ?_, rfl, ?_⟩
    · simp only [OMPLInterface.getPlanningContext, hm, hcc]
    · simp [referenceOf, List.getElem?_set_self (getElem?_lt_of_eq_some hc),
        ModelBasedPlanningContext.setConstraintsApproximations]
  · intro req a m h hm
    have hm1 : (ContextCall.byRequest req).onManager self.context_manager_ heap =
        .ok (a, m, h) := hm
    obtain ⟨c, hc, hcc⟩ := interface_configures_after_manager self hm1
    refine ⟨c, _, hc, ?_, rfl, ?_⟩
    · simp only [OMPLInterface.getPlanningContextForRequest, hm, hcc]
    · simp [referenceOf, List.getElem?_set_self (getElem?_lt_of_eq_some hc),
        ModelBasedPlanningContext.setConstraintsApproximations]

/-! ### The "last context" handle -/

theorem session_getPlanningContext_error {s : Session} {call : ContextCall}
    {e : PlanningError} (hm : call.onManager s.iface.context_manager_ s.heap = .error e) :
    s.getPlanningContext call = .error (.raised e) := by
  cases call with
  | byName config factory_type =>
    simp only [ContextCall.onManager] at hm
    simp only [Session.getPlanningContext, OMPLInterface.getPlanningContext, hm]
  | byRequest req =>
    simp only [ContextCall.onManager] at hm
    simp only [Session.getPlanningContext, OMPLInterface.getPlanningContextForRequest, hm]

theorem session_getPlanningContext_ok {s : Session} {call : ContextCall} {a : Addr}
    {m : PlanningContextManager} {h : Heap}
    (hm : call.onManager s.iface.context_manager_ s.heap = .ok (a, m, h)) :
    ∃ c, h[a]? = some c ∧ s.getPlanningContext call =
      .ok (some a, { iface := { s.iface with context_manager_ := m },
                     heap := h.set a (c.setConstraintsApproximations
                       (if s.iface.isUsingConstraintsApproximations
                        then some s.iface.constraints_library_addr else none)) }) := by
  obtain ⟨c, hc, hcc⟩ := interface_configures_after_manager s.iface hm
  refine ⟨c, hc, ?_⟩
  cases call with
  | byName config factory_type =>
    simp only [ContextCall.onManager] at hm
    simp only [Session.getPlanningContext, OMPLInterface.getPlanningContext, hm, hcc]
  | byRequest req =>
    simp only [ContextCall.onManager] at hm
    simp only [Session.getPlanningContext, OMPLInterface.getPlanningContextForRequest, hm, hcc]

/-- What a successful call leaves behind. -/
theorem session_getPlanningContext_effect {s s1 : Session} {call : ContextCall}
    {p : ModelBasedPlanningContextPtr} (hs : s.getPlanningContext call = .ok (p, s1)) :
    p = some s.heap.length
      ∧ s1.iface.getLastPlanningContext = p
      ∧ s1.iface.isUsingConstraintsApproximations = s.iface.isUsingConstraintsApproximations
      ∧ s1.iface.constraints_library_addr = s.iface.constraints_library_addr
      ∧ referenceOf s1.heap p =
          some (if s.iface.isUsingConstraintsApproximations
                then some s.iface.constraints_library_addr else none) := by
  cases hm : call.onManager s.iface.context_manager_ s.heap with
  | error e =>
    rw [session_getPlanningContext_error hm] at hs
    cases hs
  | ok r =>
    obtain ⟨a, m, h⟩ := r
    obtain ⟨c, hc, hcc⟩ := session_getPlanningContext_ok hm
    obtain ⟨e1, e2, _, _⟩ := manager_onManager_ok hm
    rw [hcc] at hs
    injection hs with hs
    injection hs with hp hs1
    subst hp hs1 e2
    refine ⟨by rw [e1], ?_, rfl, rfl, ?_⟩
    · simp [OMPLInterface.getLastPlanningContext,
        PlanningContextManager.getLastPlanningContext, e1]
    · simp [referenceOf, List.getElem?_set_self (getElem?_lt_of_eq_some hc),
        ModelBasedPlanningContext.setConstraintsApproximations]

theorem session_after_ok {s s1 : Session} {call : ContextCall}
    {p : ModelBasedPlanningContextPtr} (hs : s.getPlanningContext call = .ok (p, s1)) :
    s.after call = s1 := by
  simp [Session.after, hs]

theorem session_after_error {s : Session} {call : ContextCall} {e : Fault}
    (hs : s.getPlanningContext call = .error e) : s.after call = s := by
  simp [Session.after, hs]

theorem run_last (s : Session) (calls : List ContextCall) :
    (s.run calls).iface.getLastPlanningContext =
      match s.lastReturned calls with
      | some a => some a
      | none => s.iface.getLastPlanningContext := by
  induction calls generalizing s with
  | nil => rfl
  | cons call calls ih =>
    simp only [Session.run, Session.lastReturned]
    rw [ih (s.after call)]
    cases hl : (s.after call).lastReturned calls with
    | some a => rfl
    | none =>
      cases hs : s.getPlanningContext call with
      | error e => simp [session_after_error hs]
      | ok r =>
        obtain ⟨p, s1⟩ := r
        obtain ⟨e1, e2, _⟩ := session_getPlanningContext_effect hs
        simp [session_after_ok hs, e2, e1]

theorem session_getPlanningContext_defined (s : Session) (call : ContextCall) :
    s.getPlanningContext call ≠ .error .nullDereference := by
  cases hm : call.onManager s.iface.context_manager_ s.heap with
  | error e =>
    rw [session_getPlanningContext_error hm]
    exact fun h => nomatch h
  | ok r =>
    obtain ⟨a, m, h⟩ := r
    obtain ⟨c, _, hcc⟩ := session_getPlanningContext_ok hm
    rw [hcc]
    exact fun h => nomatch h

/-- C3. `getLastPlanningContext()` returns the most recently created
context: after any sequence of `getPlanningContext` calls it is the pointer
that the last successful call of the sequence returned (the handle is as it
was when no call succeeded), and on a freshly constructed interface, on
which no context was created, it is empty, so that after any sequence of
calls on a fresh interface it is exactly the context returned last.  A call
either succeeds or passes on an error of the manager; it never dereferences
an empty pointer. -/
theorem getLastPlanningContext_most_recent (s : Session) (calls : List ContextCall)
    (kmodel : KinematicModel) (factories : List StateSpaceFactory) (library_addr : Addr)
    (flag : Bool) (heap : Heap) :
    ((s.run calls).iface.getLastPlanningContext =
        match s.lastReturned calls with
        | some a => some a
        | none => s.iface.getLastPlanningContext)
      ∧ (OMPLInterface.new kmodel factories library_addr flag).getLastPlanningContext = none
      ∧ (Session.run { iface := OMPLInterface.new kmodel factories library_addr flag,
                       heap := heap } calls).iface.getLastPlanningContext =
          Session.lastReturned { iface := OMPLInterface.new kmodel factories library_addr flag,
                                 heap := heap } calls
      ∧ (∀ call, s.getPlanningContext call ≠ .error .nullDereference) := by
  refine ⟨run_last s calls, rfl, ?_, session_getPlanningContext_defined s⟩
  rw [run_last]
  cases Session.lastReturned { iface := OMPLInterface.new kmodel factories library_addr flag,
                               heap := heap } calls <;> rfl

/-- C10. The flag is read when a context is created and is not applied
again: a later `useConstraintsApproximations(b)` leaves the reference of a
context returned by `getPlanningContext` as that call set it, so the context
seen through `getLastPlanningContext()` carries an attachment that follows
the flag of the time of its creation, and disagrees with
`isUsingConstraintsApproximations()` as soon as `b` differs from that flag. -/
theorem flag_not_retroactive (s s1 : Session) (call : ContextCall)
    (p : ModelBasedPlanningContextPtr) (b : Bool)
    (hs : s.getPlanningContext call = .ok (p, s1)) :
    referenceOf (s1.useConstraintsApproximations b).heap p = referenceOf s1.heap p
      ∧ referenceOf s1.heap p =
          some (if s.iface.isUsingConstraintsApproximations
                then some s.iface.constraints_library_addr else none)
      ∧ (s1.useConstraintsApproximations b).iface.getLastPlanningContext = p
      ∧ (s1.useConstraintsApproximations b).iface.isUsingConstraintsApproximations = b
      ∧ isAttached (s1.useConstraintsApproximations b).heap
          (s1.useConstraintsApproximations b).iface.getLastPlanningContext =
            s.iface.isUsingConstraintsApproximations
      ∧ (b ≠ s.iface.isUsingConstraintsApproximations →
          isAttached (s1.useConstraintsApproximations b).heap
            (s1.useConstraintsApproximations b).iface.getLastPlanningContext ≠
              (s1.useConstraintsApproximations b).iface.isUsingConstraintsApproximations) := by
  obtain ⟨_, e2, _, _, e5⟩ := session_getPlanningContext_effect hs
  have hlast : (s1.useConstraintsApproximations b).iface.getLastPlanningContext = p := e2
  have hatt : isAttached (s1.useConstraintsApproximations b).heap
      (s1.useConstraintsApproximations b).iface.getLastPlanningContext =
        s.iface.isUsingConstraintsApproximations := by
    rw [hlast]
    show isAttached s1.heap p = _
    unfold isAttached
    rw [e5]
    cases s.iface.isUsingConstraintsApproximations <;> rfl
  refine ⟨rfl, e5, hlast, rfl, hatt, ?_⟩
  intro hb
  rw [hatt]
  exact fun h => hb (h.trans rfl).symm

/-! ### The store file format -/

theorem readInt_readsBack : ReadsBack writeInt readInt := by
  intro a rest
  rfl

theorem readInt_acceptsOnlyWritten : AcceptsOnlyWritten writeInt readInt := by
  intro f a rest h
  match f, h with
  | Token.int i :: r, h =>
    simp only [readInt, Option.some.injEq, Prod.mk.injEq] at h
    obtain ⟨h1, h2⟩ := h
    subst h1 h2
    rfl

theorem readNat_int (n : Nat) (rest : StoreFile) :
    readNat (Token.int n :: rest) = some (n, rest) := by
  simp [readNat]

theorem readNat_eq_some {f rest : StoreFile} {n : Nat} (h : readNat f = some (n, rest)) :
    f = Token.int n :: rest := by
  match f, h with
  | Token.int i :: r, h =>
    simp only [readNat] at h
    split at h
    · rename_i hi
      simp only [Option.some.injEq, Prod.mk.injEq] at h
      obtain ⟨h1, h2⟩ := h
      subst h1 h2
      rw [Int.toNat_of_nonneg hi]
    · cases h

theorem readStr_eq_some {f rest : StoreFile} {s : String} (h : readStr f = some (s, rest)) :
    f = Token.str s :: rest := by
  match f, h with
  | Token.str t :: r, h =>
    simp only [readStr, Option.some.injEq, Prod.mk.injEq] at h
    obtain ⟨h1, h2⟩ := h
    subst h1 h2
    rfl

theorem readMany_writeMany {α : Type} {w : α → StoreFile} {r : Reader α}
    (hr : ReadsBack w r) (l : List α) (rest : StoreFile) :
    readMany r l.length (writeMany w l ++ rest) = some (l, rest) := by
  induction l with
  | nil => rfl
  | cons a l ih =>
    simp only [List.length_cons, readMany, writeMany, List.append_assoc, hr a, ih]

theorem readMany_eq_some {α : Type} {w : α → StoreFile} {r : Reader α}
    (hr : AcceptsOnlyWritten w r) (n : Nat) (f : StoreFile) (l : List α) (rest : StoreFile)
    (h : readMany r n f = some (l, rest)) : l.length = n ∧ f = writeMany w l ++ rest := by
  induction n generalizing f l rest with
  | zero =>
    simp only [readMany, Option.some.injEq, Prod.mk.injEq] at h
    obtain ⟨h1, h2⟩ := h
    subst h1 h2
    exact ⟨rfl, rfl⟩
  | succ n ih =>
    simp only [readMany] at h
    split at h
    · cases h
    · rename_i a r1 ha
      split at h
      · cases h
      · rename_i l1 r2 hl
        simp only [Option.some.injEq, Prod.mk.injEq] at h
        obtain ⟨h1, h2⟩ := h
        subst h1 h2
        obtain ⟨e1, e2⟩ := ih r1 l1 r2 hl
        refine ⟨by simp [e1], ?_⟩
        rw [hr f a r1 ha, e2]
        simp [writeMany]

theorem readCounted_readsBack {α : Type} {w : α → StoreFile} {r : Reader α}
    (hr : ReadsBack w r) : ReadsBack (writeCounted w) (readCounted r) := by
  intro l rest
  simp only [writeCounted, readCounted, List.cons_append, readNat_int]
  exact readMany_writeMany hr l rest

theorem readCounted_acceptsOnlyWritten {α : Type} {w : α → StoreFile} {r : Reader α}
    (hr : AcceptsOnlyWritten w r) : AcceptsOnlyWritten (writeCounted w) (readCounted r) := by
  intro f l rest h
  simp only [readCounted] at h
  split at h
  · cases h
  · rename_i n r1 hn
    obtain ⟨e1, e2⟩ := readMany_eq_some hr n r1 l rest h
    rw [readNat_eq_some hn, e2, ← e1]
    rfl

theorem readEdge_readsBack : ReadsBack writeEdge readEdge := by
  intro e rest
  simp [writeEdge, readEdge, readNat_int]

theorem readEdge_acceptsOnlyWritten : AcceptsOnlyWritten writeEdge readEdge := by
  intro f e rest h
  simp only [readEdge] at h
  split at h
  · cases h
  · rename_i a r1 ha
    split at h
    · cases h
    · rename_i b r2 hb
      simp only [Option.some.injEq, Prod.mk.injEq] at h
      obtain ⟨h1, h2⟩ := h
      subst h1 h2
      rw [readNat_eq_some ha, readNat_eq_some hb]
      rfl

theorem readGraph_readsBack : ReadsBack writeGraph readGraph := by
  intro g rest
  simp only [writeGraph, readGraph, List.append_assoc,
    readCounted_readsBack (readCounted_readsBack readInt_readsBack) g.states,
    readCounted_readsBack readEdge_readsBack g.edges, g.edges_ok, dite_true]

theorem readGraph_acceptsOnlyWritten : AcceptsOnlyWritten writeGraph readGraph := by
  intro f g rest h
  simp only [readGraph] at h
  split at h
  · cases h
  · rename_i states r1 hs
    split at h
    · cases h
    · rename_i edges r2 he
      split at h
      · simp only [Option.some.injEq, Prod.mk.injEq] at h
        obtain ⟨h1, h2⟩ := h
        subst h1 h2
        rw [readCounted_acceptsOnlyWritten
              (readCounted_acceptsOnlyWritten readInt_acceptsOnlyWritten) f states r1 hs,
            readCounted_acceptsOnlyWritten readEdge_acceptsOnlyWritten r1 edges _ he]
        simp [writeGraph]
      · cases h

theorem readEntry_readsBack : ReadsBack writeEntry readEntry := by
  intro e rest
  simp only [writeEntry, readEntry, List.append_assoc, List.cons_append,
    readCounted_readsBack readInt_readsBack e.signature.encoding, readStr,
    readGraph_readsBack e.manifold_graph, List.nil_append]

theorem readEntry_acceptsOnlyWritten : AcceptsOnlyWritten writeEntry readEntry := by
  intro f e rest h
  simp only [readEntry] at h
  split at h
  · cases h
  · rename_i sig r1 hsig
    split at h
    · cases h
    · rename_i group r2 hgroup
      split at h
      · cases h
      · rename_i g r3 hg
        split at h
        · cases h
        · rename_i path r4 hpath
          simp only [Option.some.injEq, Prod.mk.injEq] at h
          obtain ⟨h1, h2⟩ := h
          subst h1 h2
          rw [readCounted_acceptsOnlyWritten readInt_acceptsOnlyWritten f sig r1 hsig,
            readStr_eq_some hgroup, readGraph_acceptsOnlyWritten r2 g r3 hg,
            readStr_eq_some hpath]
          simp [writeEntry]

theorem readStore_writeStore (lib : ConstraintsLibrary) : readStore (writeStore lib) = some lib := by
  have h := readCounted_readsBack readEntry_readsBack lib.constraint_approximations_ []
  rw [List.append_nil] at h
  simp only [writeStore, readStore, h, and_self, if_true]

theorem readStore_eq_some {f : StoreFile} {lib : ConstraintsLibrary}
    (h : readStore f = some lib) : writeStore lib = f := by
  unfold readStore at h
  split at h
  · rename_i name version rest
    split at h
    · rename_i hv
      split at h
      · rename_i entries he
        simp only [Option.some.injEq] at h
        subst h
        have := readCounted_acceptsOnlyWritten readEntry_acceptsOnlyWritten rest entries [] he
        rw [this, hv.1, hv.2]
        simp [writeStore]
      · cases h
    · cases h
  · cases h

theorem readStore_eq_none_iff (f : StoreFile) : readStore f = none ↔ ¬ StructurallyValid f := by
  constructor
  · rintro h ⟨lib, rfl⟩
    rw [readStore_writeStore] at h
    cases h
  · intro h
    cases hr : readStore f with
    | none => rfl
    | some lib => exact absurd ⟨lib, readStore_eq_some hr⟩ h

theorem writeStore_no_extension {lib lib1 : ConstraintsLibrary} {rest : StoreFile}
    (h : writeStore lib = writeStore lib1 ++ rest) : rest = [] := by
  simp only [writeStore, List.cons_append, List.cons.injEq, true_and] at h
  have h1 := readCounted_readsBack readEntry_readsBack lib.constraint_approximations_ []
  rw [List.append_nil, h, readCounted_readsBack readEntry_readsBack] at h1
  simp only [Option.some.injEq, Prod.mk.injEq] at h1
  exact h1.2

theorem truncated_not_structurallyValid (lib : ConstraintsLibrary) (n : Nat)
    (hn : n < (writeStore lib).length) : ¬ StructurallyValid ((writeStore lib).take n) := by
  rintro ⟨lib1, h1⟩
  have h2 : writeStore lib = writeStore lib1 ++ (writeStore lib).drop n := by
    rw [h1, List.take_append_drop]
  have h3 := writeStore_no_extension h2
  have h4 : (writeStore lib).length ≤ n := List.drop_eq_nil_iff.mp h3
  omega

theorem load_of_not_structurallyValid (self : OMPLInterface) (fs : FileSystem) (path : String)
    (h : ¬ StructurallyValid (fs path)) :
    self.loadConstraintApproximations fs path = (.error .CorruptStore, self) := by
  have hr := (readStore_eq_none_iff (fs path)).mpr h
  simp [OMPLInterface.loadConstraintApproximations,
    ConstraintsLibrary.loadConstraintApproximations, hr]

theorem rounded_topology (precision : Int → Int) (lib : ConstraintsLibrary) :
    (lib.rounded precision).constraint_approximations_.map ConstraintApproximation.topology =
      lib.constraint_approximations_.map ConstraintApproximation.topology := by
  simp [ConstraintsLibrary.rounded, ConstraintApproximation.topology, Function.comp_def,
    ConstraintApproximation.rounded, ManifoldGraph.rounded]

theorem rounded_id (lib : ConstraintsLibrary) : lib.rounded (fun x => x) = lib := by
  obtain ⟨entries⟩ := lib
  simp only [ConstraintsLibrary.rounded, ConstraintsLibrary.mk.injEq]
  conv_rhs => rw [← List.map_id entries]
  apply List.map_congr_left
  intro e _
  obtain ⟨sig, group, ⟨states, edges, ok⟩, sp⟩ := e
  simp [ConstraintApproximation.rounded, ManifoldGraph.rounded]

/-- C4. Saving a store to a path and loading that path into a fresh store
succeeds and reproduces the entries: as many entries, in the same order, each
with the same signature, group, number of states and edges (and storage
path); the sample coordinates are those of the saved store at the saved
precision, and the loaded store equals the saved one when the precision
loses nothing. -/
theorem save_then_load_roundtrip (precision : Int → Int) (self : OMPLInterface)
    (fs : FileSystem) (path : String) (kmodel : KinematicModel)
    (factories : List StateSpaceFactory) (library_addr : Addr) (flag : Bool) :
    (∃ loaded : OMPLInterface,
        (OMPLInterface.new kmodel factories library_addr flag).loadConstraintApproximations
            (self.saveConstraintApproximations precision fs path) path = (.ok (), loaded)
        ∧ loaded.constraints_library_ = self.constraints_library_.rounded precision
        ∧ loaded.constraints_library_.constraint_approximations_.length =
            self.constraints_library_.constraint_approximations_.length
        ∧ loaded.constraints_library_.constraint_approximations_.map
              ConstraintApproximation.topology =
            self.constraints_library_.constraint_approximations_.map
              ConstraintApproximation.topology
        ∧ loaded.constraints_library_.constraint_approximations_.map
              (fun e => e.storage_path) =
            self.constraints_library_.constraint_approximations_.map
              (fun e => e.storage_path))
      ∧ ((OMPLInterface.new kmodel factories library_addr flag).loadConstraintApproximations
            (self.saveConstraintApproximations (fun x => x) fs path) path).2.constraints_library_
          = self.constraints_library_ := by
  have hload : ∀ q : Int → Int,
      (OMPLInterface.new kmodel factories library_addr flag).loadConstraintApproximations
        (self.saveConstraintApproximations q fs path) path =
      (.ok (), { OMPLInterface.new kmodel factories library_addr flag with
                  constraints_library_ := self.constraints_library_.rounded q }) := by
    intro q
    simp [OMPLInterface.loadConstraintApproximations,
      ConstraintsLibrary.loadConstraintApproximations,
      OMPLInterface.saveConstraintApproximations,
      ConstraintsLibrary.saveConstraintApproximations, readStore_writeStore]
  refine ⟨⟨_, hload precision, rfl, ?_, rounded_topology precision _, ?_⟩, ?_⟩
  · simp [ConstraintsLibrary.rounded]
  · simp [ConstraintsLibrary.rounded, ConstraintApproximation.rounded, Function.comp_def]
  · rw [hload]
    exact rounded_id _

/-- C5. Loading a structurally invalid file, one that is not the written
form of any store, such as a truncated store file, reports `CorruptStore` to
the caller and leaves the interface, and with it the store in memory,
exactly as it was. -/
theorem load_corrupt_is_all_or_nothing (self : OMPLInterface) (fs : FileSystem)
    (path : String) (h : ¬ StructurallyValid (fs path)) :
    self.loadConstraintApproximations fs path = (.error .CorruptStore, self)
      ∧ (self.loadConstraintApproximations fs path).2.constraints_library_ =
          self.constraints_library_
      ∧ (∀ (lib : ConstraintsLibrary) (n : Nat), n < (writeStore lib).length →
          self.loadConstraintApproximations
            (fun p => if p = path then (writeStore lib).take n else fs p) path =
              (.error .CorruptStore, self)) := by
  refine ⟨load_of_not_structurallyValid self fs path h, ?_, ?_⟩
  · rw [load_of_not_structurallyValid self fs path h]
  · intro lib n hn
    apply load_of_not_structurallyValid
    simp only [if_true]
    exact truncated_not_structurallyValid lib n hn

/-! ### Preparation of a solve -/

/-- The preparation of a valid request with a positive time budget creates
the context, configures it and hands it over with one attempt and the budget
of the request. -/
theorem prepareForSolve_armRequest :
    armInterface.prepareForSolve [] openScene armRequest =
      (.ok { context := some 0, attempts := 1, timeout := 5, lead := none },
       { armInterface with context_manager_ := armManagerAfter },
       [({ armContext with constraints_approximations := some 100 }).seed armRequest]) := by
  decide

/-- C1 at a concrete input: a context that referenced the store at address 7
references the interface's store, at address 100, after the call. -/
theorem configureConstraints_sets_reference_witness :
    [armContext][0]? = some armContext
      ∧ ∃ heap1, armInterface.configureConstraints [armContext] (some 0) = .ok heap1
          ∧ referenceOf heap1 (some 0) = some (some 100) :=
  ⟨rfl, by
    obtain ⟨heap1, e1, _, e3, _⟩ :=
      configureConstraints_sets_reference armInterface [armContext] 0 armContext rfl
    exact ⟨heap1, e1, e3⟩⟩

/-- C8 at a concrete input. -/
theorem configureConstraints_idempotent_witness :
    [armContext][0]? = some armContext
      ∧ ∃ heap1, armInterface.configureConstraints [armContext] (some 0) = .ok heap1
          ∧ armInterface.configureConstraints heap1 (some 0) = .ok heap1 :=
  ⟨rfl, configureConstraints_idempotent armInterface [armContext] 0 armContext rfl⟩

/-- C2 at a concrete input, for both overloads: the flag is set, the context
at address 0 comes back with the reference 100. -/
theorem getPlanningContext_configures_witness :
    armInterface.context_manager_.getPlanningContext [] "arm" "" =
        .ok (0, armManagerAfter, [armFreshContext])
      ∧ (∃ c h1, [armFreshContext][0]? = some c
          ∧ armInterface.getPlanningContext [] "arm" "" =
              .ok (some 0, { armInterface with context_manager_ := armManagerAfter }, h1)
          ∧ referenceOf h1 (some 0) = some (some 100))
      ∧ armInterface.context_manager_.getPlanningContextForRequest [] armRequest =
          .ok (0, armManagerAfter, [armFreshContext.seed armRequest])
      ∧ (∃ c h1, [armFreshContext.seed armRequest][0]? = some c
          ∧ armInterface.getPlanningContextForRequest [] armRequest =
              .ok (some 0, { armInterface with context_manager_ := armManagerAfter }, h1)
          ∧ referenceOf h1 (some 0) = some (some 100)) :=
  ⟨by decide, by
    obtain ⟨c, h1, e1, e2, _, e4⟩ :=
      (getPlanningContext_configures armInterface []).1 "arm" "" 0 armManagerAfter
        [armFreshContext] (by decide)
    exact ⟨c, h1, e1, e2, e4⟩,
   by decide, by
    obtain ⟨c, h1, e1, e2, _, e4⟩ :=
      (getPlanningContext_configures armInterface []).2 armRequest 0 armManagerAfter
        [armFreshContext.seed armRequest] (by decide)
    exact ⟨c, h1, e1, e2, e4⟩⟩

/-- C10 at a concrete input: the context was created with the flag set, the
flag is cleared afterwards, and the last context still has the store
attached. -/
theorem flag_not_retroactive_witness :
    armSession.getPlanningContext (.byName "arm" "") = .ok (some 0, armSessionAfter)
      ∧ referenceOf (armSessionAfter.useConstraintsApproximations false).heap (some 0) =
          some (some 100)
      ∧ (armSessionAfter.useConstraintsApproximations false).iface.getLastPlanningContext =
          some 0
      ∧ (armSessionAfter.useConstraintsApproximations false).iface.isUsingConstraintsApproximations
          = false
      ∧ isAttached (armSessionAfter.useConstraintsApproximations false).heap
          (armSessionAfter.useConstraintsApproximations false).iface.getLastPlanningContext =
            true :=
  ⟨by decide, by
    obtain ⟨e1, e2, e3, e4, e5, _⟩ :=
      flag_not_retroactive armSession armSessionAfter (.byName "arm" "") (some 0) false
        (by decide)
    exact ⟨e1.trans e2, e3, e4, e5⟩⟩

/-- C5 at a concrete input: the interface holds `armLibrary`, the file is a
written store cut short, the load reports `CorruptStore` and the interface
still holds `armLibrary`. -/
theorem load_corrupt_is_all_or_nothing_witness :
    ¬ StructurallyValid (truncatedFiles "store")
      ∧ armInterfaceLoaded.loadConstraintApproximations truncatedFiles "store" =
          (.error .CorruptStore, armInterfaceLoaded)
      ∧ (armInterfaceLoaded.loadConstraintApproximations truncatedFiles
          "store").2.constraints_library_ = armLibrary :=
  ⟨(readStore_eq_none_iff _).mp (by decide), by
    obtain ⟨e1, e2, _⟩ :=
      load_corrupt_is_all_or_nothing armInterfaceLoaded truncatedFiles "store"
        ((readStore_eq_none_iff _).mp (by decide))
    exact ⟨e1, e2⟩⟩

end ompl_interface
